import Mathlib

/-!
# Verification of the neuro-flow core (parser and live runner)

Shallow embedding of the YAML schema layer (`neuro_flow/parser.py`) and the
live job controller (`src/neuro_flow/live_runner.py`) together with proofs
about the spec's claims.

Conventions:
* Python strings are modelled as `String` or `List Char`.
* Machine floats are modelled exactly (`Rat`); the claims only evaluate
  lifespans whose values are exactly representable, so rounding is out of
  scope.
* Fallible code returns `Option`.
-/

set_option autoImplicit false

/-! ## Lifespan parsing (`neuro_flow/parser.py`, `make_lifespan` / `RegexLifeSpan` / `LIFE_SPAN`) -/

/-- The named groups `d`, `h`, `m`, `s` of the lifespan regex
`^((?P<d>\d+)d)?((?P<h>\d+)h)?((?P<m>\d+)m)?((?P<s>\d+)s)?$`.
`none` means the optional group did not participate in the match. -/
structure LifespanGroups where
  d : Option Nat
  h : Option Nat
  m : Option Nat
  s : Option Nat
  deriving DecidableEq, Repr

/-- Longest digit run at the head of the character list, with the rest. -/
def takeDigits : List Char → List Char × List Char
  | [] => ([], [])
  | c :: cs =>
    if c.isDigit then
      let (ds, rest) := takeDigits cs
      (c :: ds, rest)
    else ([], c :: cs)

/-- Decimal value of a digit run. -/
def digitsVal (ds : List Char) : Nat :=
  ds.foldl (fun acc c => acc * 10 + (c.toNat - '0'.toNat)) 0

/-- One optional component `((\d+)X)?` of the lifespan regex: consume a
nonempty digit run followed by the component letter, or consume nothing.
This greedy rule is equivalent to the regex engine's backtracking search:
after a shorter digit run the next character is a digit (never the letter),
and skipping a matchable component leaves input starting with a digit that
later components and the `$` anchor cannot consume. -/
def matchComp (letter : Char) (s : List Char) : Option Nat × List Char :=
  match takeDigits s with
  | (ds, c :: rest) =>
    if ds.isEmpty then (none, s)
    else if c == letter then (some (digitsVal ds), rest)
    else (none, s)
  | (_, []) => (none, s)

/-- Anchored match of the lifespan regex
`^((?P<d>\d+)d)?((?P<h>\d+)h)?((?P<m>\d+)m)?((?P<s>\d+)s)?$`
(`RegexLifeSpan` in `parser.py`). All four groups are optional, so the
empty input yields a (fully absent) match. -/
def lifespanRegexMatch (s : List Char) : Option LifespanGroups :=
  let r1 := matchComp 'd' s
  let r2 := matchComp 'h' r1.2
  let r3 := matchComp 'm' r2.2
  let r4 := matchComp 's' r3.2
  if r4.2.isEmpty then some ⟨r1.1, r2.1, r3.1, r4.1⟩ else none

/-- `make_lifespan`: total seconds of
`timedelta(days=d, hours=h, minutes=m, seconds=s)` with absent groups
contributing zero (`int(match.group(..) or 0)`). -/
def make_lifespan (g : LifespanGroups) : Nat :=
  86400 * g.d.getD 0 + 3600 * g.h.getD 0 + 60 * g.m.getD 0 + g.s.getD 0

/-- Characters that can occur in a plain decimal float literal.
Modelled from the spec: Python's `float(str)` (used by the external
`trafaret.Float` checker) additionally accepts surrounding whitespace,
`inf`/`nan` words and digit-group underscores; none of those forms can
collide with a lifespan-regex match, and no claim evaluates them. -/
def isFloatChar (c : Char) : Bool :=
  c.isDigit || c == '.' || c == '+' || c == '-' || c == 'e' || c == 'E'

/-- An exact decimal number `num / 10 ^ scale`.  This represents the value a
Python float literal denotes before IEEE rounding; the claims only evaluate
lifespans whose values are exactly representable. -/
structure DecNum where
  num : Int
  scale : Nat
  deriving DecidableEq, Repr

/-- The rational value of a `DecNum`. -/
def DecNum.val (p : DecNum) : Rat := (p.num : Rat) / (10 : Rat) ^ p.scale

/-- Decimal float literal: `[sign] digits [. digits] [(e|E) [sign] digits]`
with at least one mantissa digit, evaluated exactly. -/
def pyFloatCore (s : List Char) : Option DecNum :=
  let signRest : Int × List Char :=
    match s with
    | '+' :: rest => (1, rest)
    | '-' :: rest => (-1, rest)
    | _ => (1, s)
  let (ip, s2) := takeDigits signRest.2
  let fracRest : List Char × List Char :=
    match s2 with
    | '.' :: rest => takeDigits rest
    | _ => ([], s2)
  let fp := fracRest.1
  if ip.isEmpty && fp.isEmpty then none
  else
    let mantNum : Int := signRest.1 * (digitsVal ip * 10 ^ fp.length + digitsVal fp)
    match fracRest.2 with
    | [] => some ⟨mantNum, fp.length⟩
    | e :: rest =>
      if e == 'e' || e == 'E' then
        let esignRest : Bool × List Char :=
          match rest with
          | '+' :: r => (false, r)
          | '-' :: r => (true, r)
          | _ => (false, rest)
        let (ed, r2) := takeDigits esignRest.2
        if ed.isEmpty || !r2.isEmpty then none
        else if esignRest.1 then some ⟨mantNum, fp.length + digitsVal ed⟩
        else some ⟨mantNum * 10 ^ digitsVal ed, fp.length⟩
      else none

/-- Modelled from the spec: the external `trafaret.Float` checker converts a
string with Python's `float`; it fails on the empty string and on any string
holding a character outside the float-literal alphabet. -/
def pyFloatParse (s : List Char) : Option DecNum :=
  if !s.isEmpty && s.all isFloatChar then pyFloatCore s else none

/-- The `LIFE_SPAN` validator `t.Float & str | RegexLifeSpan & str`:
try the float conversion first, else the lifespan regex.  The trailing
`& str` renders the number with Python `str`; we keep the exact numeric
value, which is what every claim observes. -/
def lifespanValue (s : String) : Option DecNum :=
  match pyFloatParse s.data with
  | some v => some v
  | none => (lifespanRegexMatch s.data).map (fun g => ⟨(make_lifespan g : Int), 0⟩)

example : lifespanValue "1d2h3m4s" = some ⟨93784, 0⟩ := by decide
example : lifespanValue "10m" = some ⟨600, 0⟩ := by decide
example : lifespanValue "2.5" = some ⟨25, 1⟩ := by decide
example : DecNum.val ⟨25, 1⟩ = 5 / 2 := by norm_num [DecNum.val]
example : lifespanValue "1d86400s" = some ⟨172800, 0⟩ := by decide
example : lifespanValue "" = some ⟨0, 0⟩ := by decide
example : lifespanValue "abc" = none := by decide

/-! ## YAML schema layer (`neuro_flow/parser.py`: `VOLUME`, `EXEC_UNIT`, `JOB`)

The schema combinators come from the external `trafaret` library; their key
handling is modelled from the spec: a `t.Dict` fails on unknown keys, a
missing required key fails, a missing optional key is skipped, and a missing
key with a default receives the default value, run through the key's checker
(so `t.Key("detach", default=False): t.Bool & str` stores the string
rendering `"False"`). -/

/-- A YAML scalar or collection as produced by the YAML decoder. -/
inductive YVal where
  | s (v : String)
  | b (v : Bool)
  | i (v : Int)
  | f (v : DecNum)
  | list (vs : List YVal)
  | map (kvs : List (String × YVal))

/-- How a `t.Key` treats an absent key. -/
inductive KeyMode where
  | required
  | optional
  | dflt (v : YVal)

/-- One `t.Key` entry of a `t.Dict` schema. -/
structure KeySpec where
  name : String
  mode : KeyMode
  check : YVal → Option YVal

/-- First value bound to `k` in an association list. -/
def lookupKV (kvs : List (String × YVal)) (k : String) : Option YVal :=
  match kvs.find? (fun kv => kv.1 == k) with
  | some kv => some kv.2
  | none => none

/-- Process the key list of a `t.Dict` against an input mapping, in schema
order: present keys are validated, absent defaulted keys get their checked
default, absent optional keys are skipped, absent required keys fail. -/
def applyKeys : List KeySpec → List (String × YVal) → Option (List (String × YVal))
  | [], _ => some []
  | ks :: rest, input =>
    match lookupKV input ks.name with
    | some v =>
      match ks.check v with
      | some v' => (applyKeys rest input).map (fun out => (ks.name, v') :: out)
      | none => none
    | none =>
      match ks.mode with
      | .required => none
      | .optional => applyKeys rest input
      | .dflt d =>
        match ks.check d with
        | some v' => (applyKeys rest input).map (fun out => (ks.name, v') :: out)
        | none => none

/-- `t.Dict` application: reject unknown keys, then process the schema keys. -/
def dictCheck (keys : List KeySpec) (input : List (String × YVal)) : Option (List (String × YVal)) :=
  if input.all (fun kv => keys.any (fun ks => ks.name == kv.1)) then applyKeys keys input
  else none

/-- `t.String`: a non-empty string (trafaret's default `allow_blank=False`). -/
def tString : YVal → Option YVal
  | .s v => if v.isEmpty then none else some (.s v)
  | _ => none

/-- Python `str` of a bool. -/
def pyBoolStr (b : Bool) : String := if b then "True" else "False"

/-- `t.Bool & str`: a strict bool, rendered with Python `str`. -/
def tBoolStr : YVal → Option YVal
  | .b v => some (.s (pyBoolStr v))
  | _ => none

/-- Match of `EXPR_RE = re.compile(r"\$\{\{.+\}\}")` with `re.match`
semantics: anchored at the start only, so the value must begin with the
three characters dollar-brace-brace, and after at least one further
non-newline character the two closing braces must occur. -/
def exprTail : List Char → Bool
  | c :: rest =>
    if c = '\n' then false
    else
      (match rest with
       | '}' :: '}' :: _ => true
       | _ => false) || exprTail rest
  | [] => false

/-- The `Expr` schema alternative `t.Regexp(EXPR_RE)`. -/
def tExpr : YVal → Option YVal
  | .s v =>
    match v.data with
    | '$' :: '{' :: '{' :: rest => if exprTail rest then some (.s v) else none
    | _ => none
  | _ => none

/-- `URI = t.String & URL & str | Expr`.  Modelled from the spec: the `yarl`
URL round-trip is an external collaborator accepting any non-empty string;
its normalization is not observed by any claim, so the value is kept. -/
def tUri (v : YVal) : Option YVal :=
  match tString v with
  | some v' => some v'
  | none => tExpr v

/-- `RemotePath = (t.String() & PurePosixPath & str) | Expr`.  Modelled from
the spec: the `PurePosixPath` round-trip is external; the value is kept. -/
def tRemotePath (v : YVal) : Option YVal :=
  match tString v with
  | some v' => some v'
  | none => tExpr v

/-- `t.Int & str | Expr`: a strict int (or an int-like string, which the
external trafaret converts), rendered with Python `str`; or a template. -/
def tIntStrOrExpr : YVal → Option YVal
  | .i v => some (.s (toString v))
  | v => tExpr v

/-- `t.Bool & str | Expr`. -/
def tBoolStrOrExpr (v : YVal) : Option YVal :=
  match tBoolStr v with
  | some v' => some v'
  | none => tExpr v

/-- `LIFE_SPAN | Expr`.  The numeric rendering of the `& str` conversion is
not observed by any claim; the validated value is kept. -/
def tLifespanOrExpr : YVal → Option YVal
  | .s v => if (lifespanValue v).isSome then some (.s v) else tExpr (.s v)
  | .f v => some (.f v)
  | .i v => some (.i v)
  | _ => none

/-- `t.Mapping(t.String, t.String)`. -/
def tMapStrStr : YVal → Option YVal
  | .map kvs =>
    if kvs.all (fun kv => !kv.1.isEmpty && (tString kv.2).isSome) then some (.map kvs)
    else none
  | _ => none

/-- `t.List(t.String)`. -/
def tListStr : YVal → Option YVal
  | .list vs => if vs.all (fun v => (tString v).isSome) then some (.list vs) else none
  | _ => none

/-- The `VOLUME` schema. -/
def volumeKeys : List KeySpec :=
  [⟨"uri", .required, tUri⟩,
   ⟨"mount", .required, tRemotePath⟩,
   ⟨"ro", .dflt (.b false), tBoolStrOrExpr⟩]

/-- The `EXEC_UNIT` schema. -/
def execUnitKeys : List KeySpec :=
  [⟨"title", .optional, tString⟩,
   ⟨"name", .optional, tString⟩,
   ⟨"image", .required, tString⟩,
   ⟨"preset", .optional, tString⟩,
   ⟨"entrypoint", .optional, tString⟩,
   ⟨"cmd", .required, tString⟩,
   ⟨"workdir", .optional, tRemotePath⟩,
   ⟨"env", .dflt (.map []), tMapStrStr⟩,
   ⟨"volumes", .dflt (.list []), tListStr⟩,
   ⟨"tags", .dflt (.list []), tListStr⟩,
   ⟨"life-span", .optional, tLifespanOrExpr⟩,
   ⟨"http-port", .optional, tIntStrOrExpr⟩,
   ⟨"http-auth", .optional, tBoolStrOrExpr⟩]

/-- The `JOB` schema: `EXEC_UNIT.merge(t.Dict({detach, browse}))`. -/
def jobKeys : List KeySpec :=
  execUnitKeys ++
  [⟨"detach", .dflt (.b false), tBoolStr⟩,
   ⟨"browse", .dflt (.b false), tBoolStr⟩]

example :
    dictCheck jobKeys [("image", .s "img"), ("cmd", .s "run")] =
      some [("image", .s "img"), ("cmd", .s "run"), ("env", .map []),
            ("volumes", .list []), ("tags", .list []),
            ("detach", .s "False"), ("browse", .s "False")] := rfl

example :
    dictCheck volumeKeys [("uri", .s "storage:dir"), ("mount", .s "/mnt")] =
      some [("uri", .s "storage:dir"), ("mount", .s "/mnt"), ("ro", .s "False")] := rfl

/-! ## Derived job name (`live_runner.py`, `LiveRunner.run`, the `job.name` fallback) -/

/-- Python `str.replace("_", "-")`: every underscore becomes a dash. -/
def undToDash (s : List Char) : List Char :=
  s.map (fun c => if c = '_' then '-' else c)

/-- One pass of Python `str.replace("--", "-")`: non-overlapping occurrences
are replaced left to right. -/
def ddPass : List Char → List Char
  | [] => []
  | [c] => [c]
  | a :: b :: rest =>
    if a = '-' ∧ b = '-' then '-' :: ddPass rest
    else a :: ddPass (b :: rest)

/-- Python `"--" in s`. -/
def hasDD : List Char → Bool
  | [] => false
  | [_] => false
  | a :: b :: rest => (a = '-' && b = '-') || hasDD (b :: rest)

/-- The loop `while "--" in s: s = s.replace("--", "-")`, driven by a fuel
argument; each pass strictly shrinks the string, so fuel `s.length`
suffices (`collapseDD_hasDD` below). -/
def collapseAux : Nat → List Char → List Char
  | 0, s => s
  | fuel + 1, s => if hasDD s then collapseAux fuel (ddPass s) else s

/-- The `while "--" in s` collapse loop. -/
def collapseDD (s : List Char) : List Char := collapseAux s.length s

/-- Python `str.strip("-")`: remove leading and trailing runs of dashes. -/
def stripDash (s : List Char) : List Char :=
  (((s.dropWhile (fun c => c == '-')).reverse.dropWhile (fun c => c == '-'))).reverse

/-- Python slice `s[:k]` with a possibly negative bound `k`. -/
def pyTruncate (s : List Char) (k : Int) : List Char :=
  if 0 ≤ k then s.take k.toNat else s.take (s.length - (-k).toNat)

/-- The normalization applied to each part of the derived name:
`part.replace("_", "-").strip("-")` followed by the `while "--"` collapse. -/
def normalizePart (s : List Char) : List Char :=
  collapseDD (stripDash (undToDash s))

/-- The name derived in `run()` when `job.name` is unset:
`first_part[: 40 - len(second_part) - 1] + "-" + second_part`, finished by
one more `while "--"` collapse.  The suffix is appended to the job id
before normalization iff the job is a multi job. -/
def deriveName (projectId jobId : List Char) (multi : Bool) (sfx : List Char) : List Char :=
  collapseDD
    (pyTruncate (normalizePart projectId)
        (40 - ((normalizePart (if multi then jobId ++ '-' :: sfx else jobId)).length : Int) - 1) ++
      '-' :: normalizePart (if multi then jobId ++ '-' :: sfx else jobId))

example :
    deriveName "my__cool--proj".data "data_pipeline".data false [] =
      "my-cool-proj-data-pipeline".data := by decide

example :
    deriveName "my__cool--proj".data "data_pipeline".data true "abc123".data =
      "my-cool-proj-data-pipeline-abc123".data := by decide

example : (deriveName ['p'] (List.replicate 40 'a') false []).length = 41 := by decide

example : (deriveName ['p'] (List.replicate 40 'a') false []).head? = some '-' := by decide

/-! ## Live job controller (`live_runner.py`)

The remote job service is an external collaborator; it is modelled as a
function from a query (tag filter, status filter, limit, `since` bound) to
the list of job descriptions it returns, in the order the controller
receives them. -/

/-- `neuro_sdk.JobStatus` (the members this code touches). -/
inductive JobStatus where
  | pending
  | running
  | suspended
  | succeeded
  | failed
  | cancelled
  | unknown
  deriving DecidableEq, Repr

/-- A remote `JobDescription`: id, status, tags and the history timestamps
the controller reads (modelled as abstract instants). -/
structure JobDescr where
  id : String
  status : JobStatus
  tags : List String
  createdAt : Option Nat
  startedAt : Option Nat
  finishedAt : Option Nat
  deriving DecidableEq, Repr

/-- One `client.jobs.list(...)` call as issued by `_resolve_jobs`:
the tag filter, the status filter, the `limit` argument and whether a
7-day `since` lower bound was passed. -/
structure JobQuery where
  tags : List String
  statuses : List JobStatus
  limit : Option Nat
  hasSince : Bool
  deriving DecidableEq, Repr

/-- The remote service: what each query returns, reverse chronological. -/
def Remote : Type := JobQuery → List JobDescr

/-- Python truthiness of the optional suffix argument: `None` and the empty
string are falsy. -/
def suffixTruthy : Option String → Bool
  | none => false
  | some s => !s.isEmpty

/-- Tag filter of the single-result branch of `_resolve_jobs`:
`tags = list(meta.tags); if meta.multi and suffix: tags.append(f"multi:{suffix}")`. -/
def branchBTags (multi : Bool) (metaTags : List String) (sfx : Option String) : List String :=
  match sfx with
  | some s => if multi && !s.isEmpty then metaTags ++ ["multi:" ++ s] else metaTags
  | none => metaTags

/-- First query of the single-result branch: statuses PENDING, RUNNING,
`limit=1`, no `since`. -/
def branchBQuery1 (multi : Bool) (metaTags : List String) (sfx : Option String) : JobQuery :=
  ⟨branchBTags multi metaTags sfx, [.pending, .running], some 1, false⟩

/-- Second query of the single-result branch: the four terminated-ish
statuses, `limit=1`, with the 7-day `since` bound. -/
def branchBQuery2 (multi : Bool) (metaTags : List String) (sfx : Option String) : JobQuery :=
  ⟨branchBTags multi metaTags sfx, [.suspended, .succeeded, .failed, .cancelled], some 1, true⟩

/-- `_resolve_jobs(meta, suffix)`: the jobs the generator yields (`none`
means it raised `ResourceNotFound`, which happens exactly when nothing was
yielded) together with the queries it issued, in order.

* multi job without (truthy) suffix: both queries are issued without a
  limit and fully consumed;
* otherwise: the queries carry `limit=1` and the generator returns right
  after the first yielded job, so the second query is only issued when the
  first returned nothing. -/
def resolveJobs (remote : Remote) (multi : Bool) (metaTags : List String) (sfx : Option String) :
    Option (List JobDescr) × List JobQuery :=
  if multi && !suffixTruthy sfx then
    let q1 : JobQuery := ⟨metaTags, [.pending, .running], none, false⟩
    let q2 : JobQuery := ⟨metaTags, [.suspended, .succeeded, .failed, .cancelled], none, true⟩
    let js := remote q1 ++ remote q2
    (if js.isEmpty then none else some js, [q1, q2])
  else
    let q1 := branchBQuery1 multi metaTags sfx
    match remote q1 with
    | j :: _ => (some [j], [q1])
    | [] =>
      let q2 := branchBQuery2 multi metaTags sfx
      match remote q2 with
      | j :: _ => (some [j], [q1, q2])
      | [] => (none, [q1, q2])

/-- Python `tag.partition(":")` restricted to the split case: the part
before the first colon and the part after it, or `none` when the tag has
no colon. -/
def tagPartition (tag : String) : Option (String × String) :=
  go tag.data
where
  /-- Split a character list at the first colon. -/
  go : List Char → Option (String × String)
    | [] => none
    | ':' :: rest => some ("", ⟨rest⟩)
    | c :: rest =>
      match go rest with
      | some (a, b) => some (⟨c :: a.data⟩, b)
      | none => none

/-- The tag scan of `_job_status`: the first tag of the form `multi:<v>`
decides the suffix; other tags are passed over. -/
def findMultiTag (tags : List String) : Option String :=
  tags.findSome? fun tag =>
    match tagPartition tag with
    | some (k, v) => if k == "multi" then some v else none
    | none => none

/-- `JobInfo`, the output row of the status listing. -/
structure JobInfo where
  id : String
  status : JobStatus
  rawId : Option String
  tags : List String
  when : Option Nat
  deriving DecidableEq, Repr

/-- The timestamp attached to a row: `created_at` when PENDING,
`started_at` when RUNNING, `finished_at` otherwise. -/
def whenOf (d : JobDescr) : Option Nat :=
  match d.status with
  | .pending => d.createdAt
  | .running => d.startedAt
  | _ => d.finishedAt

/-- The enumeration loop of `_job_status` over the discovered jobs, with the
running `found_suffixes` set.  A job whose `multi:<v>` tag carries a suffix
already seen is skipped (its `real_id` stays `None`) and the loop moves on
to the next job; a fresh suffix is recorded and produces the row
`"<job_id> <v>"`; a job without a `multi:` tag produces the row `job_id`. -/
def statusFold (jobId : String) (seen : List String) : List JobDescr → List JobInfo
  | [] => []
  | d :: rest =>
    match findMultiTag d.tags with
    | some v =>
      if v ∈ seen then statusFold jobId seen rest
      else ⟨jobId ++ " " ++ v, d.status, some d.id, d.tags, whenOf d⟩ :: statusFold jobId (v :: seen) rest
    | none => ⟨jobId, d.status, some d.id, d.tags, whenOf d⟩ :: statusFold jobId seen rest

/-- `_job_status(job_id)`: discover with `suffix=None`; on
`ResourceNotFound` return the single never-run row
`JobInfo(job_id, UNKNOWN, None, meta.tags, None)`, otherwise fold the
discovered jobs. -/
def jobStatus (multi : Bool) (metaTags : List String) (jobId : String) (remote : Remote) : List JobInfo :=
  match (resolveJobs remote multi metaTags none).1 with
  | none => [⟨jobId, .unknown, none, metaTags, none⟩]
  | some js => statusFold jobId [] js

/-- How `_try_attach_to_running` ends. -/
inductive AttachOutcome where
  | notAttached
  | attached (browsed attachCli : Bool)
  | throwMultipleJobs
  | throwArgsOnRunningMulti
  | exit (code : Nat)
  | assertOneJobFailed
  deriving DecidableEq, Repr

/-- `_try_attach_to_running(job_id, suffix, args, params)` on the jobs
discovery yielded (`none` = `ResourceNotFound`, caught and turned into
`False`/`notAttached`).  Checks happen in source order: the more-than-one
guard, the `is_multi and args` guard, then PENDING (`sys.exit(2)`), then
RUNNING (browse iff `job.browse`, attach iff not `job.detach`); a
terminated status falls through to `False`. -/
def tryAttachToRunning (isMulti : Bool) (sfx : Option String) (args : List String)
    (browse detach : Bool) (resolved : Option (List JobDescr)) : AttachOutcome :=
  if !isMulti || suffixTruthy sfx then
    match resolved with
    | none => .notAttached
    | some jobs =>
      if jobs.length > 1 then .throwMultipleJobs
      else
        match jobs with
        | [d] =>
          if isMulti && !args.isEmpty then .throwArgsOnRunningMulti
          else if d.status = .pending then .exit 2
          else if d.status = .running then .attached browse (!detach)
          else .notAttached
        | _ => .assertOneJobFailed
  else .notAttached

/-- How `run()` ends, as far as the claims observe it. -/
inductive RunOutcome where
  | errSuffixOnNonMulti
  | errNonMultiArgs
  | attachedExisting (browsed attachCli : Bool)
  | freshLaunch
  | attachError (e : AttachOutcome)
  deriving DecidableEq, Repr

/-- `run(job_id, suffix, args, params)` (with `dry_run=False`), up to the
attach-or-launch decision: `_ensure_meta(..., skip_check=True)` rejects a
suffix on a non-multi job, non-multi jobs reject args, then
`_try_attach_to_running` runs on the output of `_resolve_jobs`; `True`
means attached, `False` falls through to a fresh launch, and any other
outcome (exception or `sys.exit`) propagates. -/
def runDecision (remote : Remote) (multi : Bool) (metaTags : List String)
    (sfx : Option String) (args : List String) (browse detach : Bool) : RunOutcome :=
  if !multi && sfx.isSome then .errSuffixOnNonMulti
  else if !multi && !args.isEmpty then .errNonMultiArgs
  else
    match tryAttachToRunning multi sfx args browse detach (resolveJobs remote multi metaTags sfx).1 with
    | .attached b a => .attachedExisting b a
    | .notAttached => .freshLaunch
    | e => .attachError e

/-! ## Default flow id (`parser.py`, `_calc_interactive_default_id`)

A `pathlib` path is modelled by its `parts` tuple (a list of component
strings; an absolute path starts with the component `"/"`). -/

/-- `PurePath.name`: the last component, or `""` for an empty `parts` tuple
or the bare filesystem root. -/
def pathNameOf (parts : List String) : String :=
  match parts.getLast? with
  | none => ""
  | some p => if p == "/" then "" else p

/-- `PurePath.stem`: the name with its last suffix removed; pathlib keeps
the name unchanged when the last dot is leading or final
(`i = name.rfind('.'); name[:i] if 0 < i < len(name) - 1 else name`). -/
def pyStem (name : String) : String :=
  match (name.data.reverse.findIdx? (fun c => c = '.')) with
  | some rIdx =>
    let i := name.data.length - 1 - rIdx
    if 0 < i ∧ i < name.data.length - 1 then ⟨name.data.take i⟩ else name
  | none => name

/-- `_calc_interactive_default_id(path)`: when the last two components are
`.neuro` and `jobs.yml`, use `parts[-3]` (`none` models the `IndexError`
when the path has only those two components); otherwise use the stem. -/
def calcInteractiveDefaultId (parts : List String) : Option String :=
  if parts.length ≥ 2 ∧ parts.drop (parts.length - 2) = [".neuro", "jobs.yml"] then
    if h : parts.length ≥ 3 then some (parts.get ⟨parts.length - 3, by omega⟩)
    else none
  else some (pyStem (pathNameOf parts))

example : calcInteractiveDefaultId ["/", "home", "proj", ".neuro", "jobs.yml"] = some "proj" := by decide
example : calcInteractiveDefaultId [".neuro", "jobs.yml"] = none := by decide
example : calcInteractiveDefaultId ["/", "home", "flow.yml"] = some "flow" := by decide
example : pyStem "jobs.yml" = "jobs" := by decide
example : pyStem ".bashrc" = ".bashrc" := by decide
example : pyStem "a." = "a." := by decide

/-! ## Helper lemmas: lifespan -/

theorem takeDigits_append : ∀ s : List Char, (takeDigits s).1 ++ (takeDigits s).2 = s
  | [] => rfl
  | c :: cs => by
    by_cases h : c.isDigit
    · have ih := takeDigits_append cs
      simp [takeDigits, h]
      exact ih
    · simp [takeDigits, h]

/-- Each regex component either consumes nothing or consumed a digit run
followed by its letter, so the letter occurs in the input. -/
theorem matchComp_spec (l : Char) (s : List Char) :
    matchComp l s = (none, s) ∨ ∃ n rest, matchComp l s = (some n, rest) ∧ l ∈ s := by
  unfold matchComp
  rcases h : takeDigits s with ⟨ds, r⟩
  rcases r with _ | ⟨c, rest⟩
  · exact Or.inl rfl
  · by_cases hds : ds.isEmpty
    · simp [hds]
    · by_cases hc : c == l
      · refine Or.inr ⟨digitsVal ds, rest, by simp [hds, hc], ?_⟩
        have hs := takeDigits_append s
        rw [h] at hs
        rw [← hs]
        have : c = l := by simpa using hc
        subst this
        simp
      · simp [hds, hc]

/-- A nonempty string matched by the lifespan regex holds one of the four
component letters. -/
theorem lifespanRegexMatch_letter (s : List Char) (g : LifespanGroups)
    (h : lifespanRegexMatch s = some g) :
    s = [] ∨ ∃ c, c ∈ s ∧ (c = 'd' ∨ c = 'h' ∨ c = 'm' ∨ c = 's') := by
  rcases matchComp_spec 'd' s with h1 | ⟨n1, r1, h1, hm1⟩
  · rcases matchComp_spec 'h' s with h2 | ⟨n2, r2, h2, hm2⟩
    · rcases matchComp_spec 'm' s with h3 | ⟨n3, r3, h3, hm3⟩
      · rcases matchComp_spec 's' s with h4 | ⟨n4, r4, h4, hm4⟩
        · unfold lifespanRegexMatch at h
          rw [h1] at h
          simp only at h
          rw [h2] at h
          simp only at h
          rw [h3] at h
          simp only at h
          rw [h4] at h
          simp only at h
          rcases s with _ | ⟨c, cs⟩
          · exact Or.inl rfl
          · simp [List.isEmpty] at h
        · exact Or.inr ⟨'s', by
            unfold lifespanRegexMatch at h
            rw [h1] at h; simp only at h
            rw [h2] at h; simp only at h
            rw [h3] at h; simp only at h
            exact hm4, by simp⟩
      · exact Or.inr ⟨'m', by
          unfold lifespanRegexMatch at h
          rw [h1] at h; simp only at h
          rw [h2] at h; simp only at h
          exact hm3, by simp⟩
    · exact Or.inr ⟨'h', by
        unfold lifespanRegexMatch at h
        rw [h1] at h; simp only at h
        exact hm2, by simp⟩
  · exact Or.inr ⟨'d', hm1, by simp⟩

/-- A string holding a character outside the float alphabet is not a float. -/
theorem pyFloatParse_none_of_mem (s : List Char) (c : Char) (hc : c ∈ s)
    (hf : isFloatChar c = false) : pyFloatParse s = none := by
  have hall : s.all isFloatChar = false := by
    rcases h : s.all isFloatChar
    · rfl
    · have := (List.all_eq_true.mp h) c hc
      rw [hf] at this
      cases this
  simp [pyFloatParse, hall]

/-! ## Claim C1 -/

/-- C1, counterexample: the claim says the `LIFE_SPAN` validator rejects
the empty string, but every group of `RegexLifeSpan` is optional, so `""`
matches and the validator succeeds (with value `0.0`) instead of failing. -/
theorem lifespan_empty_not_rejected : lifespanValue "" ≠ none := by decide

/-- C1, amended: on the input `""` the lifespan regex matches with all four
groups absent, and the `LIFE_SPAN` validator therefore accepts the empty
string, producing `0.0` rather than a validation error. -/
theorem lifespan_empty_accepted :
    lifespanRegexMatch "".data = some ⟨none, none, none, none⟩ ∧
    lifespanValue "" = some ⟨0, 0⟩ := by
  exact ⟨by decide, by decide⟩

/-! ## Claim C7 -/

/-- C7: every string matched by the lifespan regex parses to
`d·86400 + h·3600 + m·60 + s` seconds, absent components contributing zero
(the float alternative of `LIFE_SPAN` never fires on a regex match); in
particular `"1d2h3m4s" ↦ 93784.0`, `"10m" ↦ 600.0`, `"2.5" ↦ 2.5` (through
the float alternative) and `"1d86400s" ↦ 2·86400 = 172800.0`. -/
theorem lifespan_arithmetic :
    (∀ (s : String) (g : LifespanGroups), lifespanRegexMatch s.data = some g →
        lifespanValue s =
          some ⟨(86400 * g.d.getD 0 + 3600 * g.h.getD 0 + 60 * g.m.getD 0 + g.s.getD 0 : Nat), 0⟩) ∧
    lifespanValue "1d2h3m4s" = some ⟨93784, 0⟩ ∧
    lifespanValue "10m" = some ⟨600, 0⟩ ∧
    (lifespanValue "2.5" = some ⟨25, 1⟩ ∧ DecNum.val ⟨25, 1⟩ = 5 / 2) ∧
    lifespanValue "1d86400s" = some ⟨172800, 0⟩ := by
  refine ⟨?_, by decide, by decide, ⟨by decide, by norm_num [DecNum.val]⟩, by decide⟩
  intro s g h
  have hfloat : pyFloatParse s.data = none := by
    rcases lifespanRegexMatch_letter s.data g h with hnil | ⟨c, hc, hcase⟩
    · rw [hnil]; rfl
    · refine pyFloatParse_none_of_mem s.data c hc ?_
      rcases hcase with rfl | rfl | rfl | rfl <;> decide
  unfold lifespanValue
  rw [hfloat, h]
  rfl

/-- C7, witness: the universal part evaluated at the concrete match
`"3h"` (only the hour group present). -/
theorem lifespan_arithmetic_witness : lifespanValue "3h" = some ⟨10800, 0⟩ :=
  lifespan_arithmetic.1 "3h" ⟨none, some 3, none, none⟩ (by decide)

/-! ## Claim C10 -/

/-- C10: `_calc_interactive_default_id` fails (IndexError on `parts[-3]`)
exactly on the two-component path `.neuro/jobs.yml`; every path not ending
in those two components yields the file's stem, and a path ending in them
with at least three components yields the third-from-last component. -/
theorem calc_default_id_spec :
    calcInteractiveDefaultId [".neuro", "jobs.yml"] = none ∧
    (∀ parts : List String,
        ¬(parts.length ≥ 2 ∧ parts.drop (parts.length - 2) = [".neuro", "jobs.yml"]) →
        calcInteractiveDefaultId parts = some (pyStem (pathNameOf parts))) ∧
    (∀ parts : List String, ∀ h3 : parts.length ≥ 3,
        parts.drop (parts.length - 2) = [".neuro", "jobs.yml"] →
        calcInteractiveDefaultId parts = some (parts.get ⟨parts.length - 3, by omega⟩)) := by
  refine ⟨by decide, ?_, ?_⟩
  · intro parts h
    unfold calcInteractiveDefaultId
    rw [if_neg h]
  · intro parts h3 hdrop
    unfold calcInteractiveDefaultId
    rw [if_pos ⟨by omega, hdrop⟩, dif_pos h3]

/-- C10, witness: both total branches evaluated on concrete paths. -/
theorem calc_default_id_spec_witness :
    calcInteractiveDefaultId ["/", "home", "flow.yml"] = some "flow" ∧
    calcInteractiveDefaultId ["/", "home", "proj", ".neuro", "jobs.yml"] = some "proj" := by
  constructor
  · exact (calc_default_id_spec.2.1 ["/", "home", "flow.yml"] (by decide)).trans (by decide)
  · exact (calc_default_id_spec.2.2 ["/", "home", "proj", ".neuro", "jobs.yml"]
      (by decide) (by decide)).trans (by decide)

/-! ## Claim C9 -/

/-- C9: when discovery finds nothing (`ResourceNotFound`), `_job_status`
swallows the error and returns exactly one `JobInfo` row: id = the logical
job id, status UNKNOWN, raw id `None`, the meta's tags, and no timestamp. -/
theorem job_status_not_found_row :
    ∀ (multi : Bool) (metaTags : List String) (jobId : String) (remote : Remote),
      (∀ q, remote q = []) →
      jobStatus multi metaTags jobId remote = [⟨jobId, .unknown, none, metaTags, none⟩] := by
  intro multi metaTags jobId remote h
  cases multi <;> simp [jobStatus, resolveJobs, h, branchBQuery1, branchBQuery2, suffixTruthy]

/-- C9, witness: the never-run row on an empty remote. -/
theorem job_status_not_found_row_witness :
    jobStatus true ["project:p", "job:J"] "J" (fun _ => []) =
      [⟨"J", .unknown, none, ["project:p", "job:J"], none⟩] :=
  job_status_not_found_row true ["project:p", "job:J"] "J" (fun _ => []) (fun _ => rfl)

/-! ## Claim C4 -/

/-- C4: in the non-multi-or-suffixed branch of `_resolve_jobs`, every
issued query carries `limit=1` and the (possibly suffix-extended) tag
filter; with a multi job and a given suffix the filter gains
`multi:<suffix>`; at most one job is yielded; a hit on the first
(PENDING/RUNNING) query returns immediately without issuing the second
query; and when both queries return nothing, discovery raises
`ResourceNotFound`. -/
theorem resolve_jobs_branchB :
    ∀ (remote : Remote) (multi : Bool) (metaTags : List String) (sfx : Option String),
      (multi = false ∨ suffixTruthy sfx = true) →
      (∀ js, (resolveJobs remote multi metaTags sfx).1 = some js → js.length ≤ 1) ∧
      (∀ q ∈ (resolveJobs remote multi metaTags sfx).2,
          q.limit = some 1 ∧ q.tags = branchBTags multi metaTags sfx) ∧
      (∀ s, multi = true → sfx = some s →
          branchBTags multi metaTags sfx = metaTags ++ ["multi:" ++ s]) ∧
      (∀ j js, remote (branchBQuery1 multi metaTags sfx) = j :: js →
          resolveJobs remote multi metaTags sfx = (some [j], [branchBQuery1 multi metaTags sfx])) ∧
      (remote (branchBQuery1 multi metaTags sfx) = [] →
          remote (branchBQuery2 multi metaTags sfx) = [] →
          resolveJobs remote multi metaTags sfx =
            (none, [branchBQuery1 multi metaTags sfx, branchBQuery2 multi metaTags sfx])) := by
  intro remote multi metaTags sfx hbr
  have hcond : (multi && !suffixTruthy sfx) = false := by
    rcases hbr with h | h <;> simp [h]
  have hres : resolveJobs remote multi metaTags sfx =
      match remote (branchBQuery1 multi metaTags sfx) with
      | j :: _ => (some [j], [branchBQuery1 multi metaTags sfx])
      | [] =>
        match remote (branchBQuery2 multi metaTags sfx) with
        | j :: _ => (some [j], [branchBQuery1 multi metaTags sfx, branchBQuery2 multi metaTags sfx])
        | [] => (none, [branchBQuery1 multi metaTags sfx, branchBQuery2 multi metaTags sfx]) := by
    unfold resolveJobs
    rw [hcond]
    rfl
  refine ⟨?_, ?_, ?_, ?_, ?_⟩
  · intro js hjs
    rw [hres] at hjs
    rcases h1 : remote (branchBQuery1 multi metaTags sfx) with _ | ⟨j, rest⟩
    · rw [h1] at hjs
      rcases h2 : remote (branchBQuery2 multi metaTags sfx) with _ | ⟨j', rest'⟩
      · rw [h2] at hjs; cases hjs
      · rw [h2] at hjs
        simp at hjs
        simp [← hjs]
    · rw [h1] at hjs
      simp at hjs
      simp [← hjs]
  · intro q hq
    rw [hres] at hq
    have hq1 : (branchBQuery1 multi metaTags sfx).limit = some 1 ∧
        (branchBQuery1 multi metaTags sfx).tags = branchBTags multi metaTags sfx := ⟨rfl, rfl⟩
    have hq2 : (branchBQuery2 multi metaTags sfx).limit = some 1 ∧
        (branchBQuery2 multi metaTags sfx).tags = branchBTags multi metaTags sfx := ⟨rfl, rfl⟩
    rcases h1 : remote (branchBQuery1 multi metaTags sfx) with _ | ⟨j, rest⟩
    · rw [h1] at hq
      rcases h2 : remote (branchBQuery2 multi metaTags sfx) with _ | ⟨j', rest'⟩
      · rw [h2] at hq
        simp at hq
        rcases hq with rfl | rfl
        · exact hq1
        · exact hq2
      · rw [h2] at hq
        simp at hq
        rcases hq with rfl | rfl
        · exact hq1
        · exact hq2
    · rw [h1] at hq
      simp at hq
      rw [hq]
      exact hq1
  · intro s hmulti hsome
    subst hmulti
    subst hsome
    have hs : suffixTruthy (some s) = true := by
      rcases hbr with h | h
      · cases h
      · exact h
    simp [suffixTruthy] at hs
    simp [branchBTags, hs]
  · intro j js h1
    rw [hres, h1]
  · intro h1 h2
    rw [hres, h1, h2]

/-- C4, witness: on an empty remote with a non-multi job, discovery issues
both limited queries and raises not-found. -/
theorem resolve_jobs_branchB_witness :
    resolveJobs (fun _ => []) false ["job:J"] none =
      (none, [branchBQuery1 false ["job:J"] none, branchBQuery2 false ["job:J"] none]) :=
  (resolve_jobs_branchB (fun _ => []) false ["job:J"] none (Or.inl rfl)).2.2.2.2 rfl rfl

/-! ## Claim C5 -/

/-- C5: a multi job invoked with a suffix and additional args, whose
discovered instance with that suffix is RUNNING, makes `run()` raise
"Multi job with such suffix is already running" — no attach and no fresh
launch happens. -/
theorem run_args_on_running_multi_fails :
    ∀ (remote : Remote) (metaTags : List String) (s : String) (args : List String)
      (browse detach : Bool) (d : JobDescr),
      suffixTruthy (some s) = true →
      args ≠ [] →
      (resolveJobs remote true metaTags (some s)).1 = some [d] →
      d.status = .running →
      runDecision remote true metaTags (some s) args browse detach =
        .attachError .throwArgsOnRunningMulti := by
  intro remote metaTags s args browse detach d hs hargs hres hst
  have hargs' : args.isEmpty = false := by
    rcases args with _ | ⟨a, l⟩
    · cases hargs rfl
    · rfl
  simp [runDecision, tryAttachToRunning, hres, hs, hargs']

/-- C5, witness: a concrete running suffixed instance plus args. -/
theorem run_args_on_running_multi_fails_witness :
    runDecision
        (fun q => if q.hasSince then [] else [⟨"raw1", .running, ["multi:ab"], none, some 5, none⟩])
        true ["job:J"] (some "ab") ["extra"] false false =
      .attachError .throwArgsOnRunningMulti :=
  run_args_on_running_multi_fails
    (fun q => if q.hasSince then [] else [⟨"raw1", .running, ["multi:ab"], none, some 5, none⟩])
    ["job:J"] "ab" ["extra"] false false
    ⟨"raw1", .running, ["multi:ab"], none, some 5, none⟩
    (by decide) (by decide) (by decide) rfl

/-! ## Claim C8 -/

/-- C8, counterexample: the claim asserts that a single PENDING instance
always makes `run()` exit with code 2 in the attach branch, but for a multi
job with suffix and additional args the `is_multi and args` guard fires
first and `run()` raises "Multi job with such suffix is already running"
instead of exiting 2. -/
theorem run_pending_with_args_no_exit2 :
    runDecision
        (fun q => if q.hasSince then [] else [⟨"raw1", .pending, ["multi:ab"], some 4, none, none⟩])
        true ["job:J"] (some "ab") ["extra"] false false =
      .attachError .throwArgsOnRunningMulti ∧
    runDecision
        (fun q => if q.hasSince then [] else [⟨"raw1", .pending, ["multi:ab"], some 4, none, none⟩])
        true ["job:J"] (some "ab") ["extra"] false false ≠
      .attachError (.exit 2) := by
  exact ⟨by decide, by decide⟩

/-- C8, amended: when `run()` reaches the attach branch (non-multi job
without suffix, or multi job with a truthy suffix) *with no additional
args* and the single discovered instance is PENDING, the controller
informs the user and exits with code 2 — neither an attach nor a fresh
launch happens.  (With args on a multi job the args error fires first.) -/
theorem run_pending_exits_two :
    ∀ (remote : Remote) (multi : Bool) (metaTags : List String) (sfx : Option String)
      (browse detach : Bool) (d : JobDescr),
      ((multi = false ∧ sfx = none) ∨ (multi = true ∧ suffixTruthy sfx = true)) →
      (resolveJobs remote multi metaTags sfx).1 = some [d] →
      d.status = .pending →
      runDecision remote multi metaTags sfx [] browse detach = .attachError (.exit 2) := by
  intro remote multi metaTags sfx browse detach d hbr hres hst
  rcases hbr with ⟨rfl, rfl⟩ | ⟨rfl, hs⟩
  · simp [runDecision, tryAttachToRunning, hres, hst]
  · simp [runDecision, tryAttachToRunning, hres, hst, hs]

/-- C8, witness: a pending non-multi instance exits with code 2. -/
theorem run_pending_exits_two_witness :
    runDecision
        (fun q => if q.hasSince then [] else [⟨"raw1", .pending, ["job:J"], some 4, none, none⟩])
        false ["job:J"] none [] true false =
      .attachError (.exit 2) :=
  run_pending_exits_two
    (fun q => if q.hasSince then [] else [⟨"raw1", .pending, ["job:J"], some 4, none, none⟩])
    false ["job:J"] none true false
    ⟨"raw1", .pending, ["job:J"], some 4, none, none⟩
    (Or.inl ⟨rfl, rfl⟩) (by decide) rfl

/-! ## Claim C2 -/

theorem suffixed_id_ne (jid v : String) : jid ≠ jid ++ " " ++ v := by
  intro h
  have hl := congrArg String.length h
  rw [String.length_append, String.length_append] at hl
  have hsp : (" " : String).length = 1 := rfl
  omega

theorem suffixed_id_inj (jid w v : String) (h : jid ++ " " ++ w = jid ++ " " ++ v) : w = v := by
  have h2 := congrArg String.data h
  rw [String.data_append, String.data_append, String.data_append, String.data_append] at h2
  exact String.ext (List.append_cancel_left h2)

/-- Core de-duplication invariant of the `_job_status` loop: relative to
the running `found_suffixes` set, the suffix `v` appears in at most one
output row, and in none at all when `v` is already in the set. -/
theorem statusFold_countP (jobId v : String) :
    ∀ (js : List JobDescr) (seen : List String),
      (v ∈ seen →
        (statusFold jobId seen js).countP (fun i => i.id == jobId ++ " " ++ v) = 0) ∧
      (statusFold jobId seen js).countP (fun i => i.id == jobId ++ " " ++ v) ≤ 1 := by
  intro js
  induction js with
  | nil => intro seen; simp [statusFold]
  | cons d rest ih =>
    intro seen
    rcases hm : findMultiTag d.tags with _ | w
    · -- no multi tag: the row has id `jobId`, which never matches a suffixed id
      have hne : ((jobId == jobId ++ " " ++ v) : Bool) = false := by
        rw [beq_eq_false_iff_ne]
        exact suffixed_id_ne jobId v
      constructor
      · intro hv
        simp [statusFold, hm, List.countP_cons, hne, (ih seen).1 hv]
      · simp [statusFold, hm, List.countP_cons, hne]
        exact (ih seen).2
    · by_cases hw : w ∈ seen
      · constructor
        · intro hv
          simp [statusFold, hm, hw, (ih seen).1 hv]
        · simp [statusFold, hm, hw]
          exact (ih seen).2
      · by_cases hwv : w = v
        · subst hwv
          have heq : ((jobId ++ " " ++ w == jobId ++ " " ++ w) : Bool) = true := by
            simp
          constructor
          · intro hv
            exact absurd hv hw
          · have hzero : (statusFold jobId (w :: seen) rest).countP
                (fun i => i.id == jobId ++ " " ++ w) = 0 :=
              (ih (w :: seen)).1 (List.mem_cons_self w seen)
            simp [statusFold, hm, hw, List.countP_cons, heq, hzero]
        · have hne : ((jobId ++ " " ++ w == jobId ++ " " ++ v) : Bool) = false := by
            rw [beq_eq_false_iff_ne]
            intro h
            exact hwv (suffixed_id_inj jobId w v h)
          constructor
          · intro hv
            have hv' : v ∈ w :: seen := List.mem_cons_of_mem w hv
            simp [statusFold, hm, hw, List.countP_cons, hne, (ih (w :: seen)).1 hv']
          · simp [statusFold, hm, hw, List.countP_cons, hne]
            exact (ih (w :: seen)).2

/-- C2, counterexample: the claim says a suffix already seen *terminates*
the enumeration.  In the code the `break` only leaves the inner tag loop
with `real_id = None`, skipping that one job; the enumeration continues.
With three running jobs tagged `multi:a`, `multi:a`, `multi:b` the listing
still contains the row for suffix `b`, which a terminated enumeration
would have dropped. -/
theorem job_status_dup_continues :
    jobStatus true ["job:J"]
        "J"
        (fun q =>
          if q.hasSince then []
          else
            [⟨"r1", .running, ["multi:a"], none, some 1, none⟩,
             ⟨"r2", .running, ["multi:a"], none, some 2, none⟩,
             ⟨"r3", .running, ["multi:b"], none, some 3, none⟩]) =
      [⟨"J a", .running, some "r1", ["multi:a"], some 1⟩,
       ⟨"J b", .running, some "r3", ["multi:b"], some 3⟩] := by
  decide

/-- C2, amended: a job whose `multi:<v>` tag carries a suffix already in
the seen set is *skipped* (no row, the seen set unchanged) while the
enumeration of the remaining jobs continues; consequently each suffix
yields at most one row across the two discovery queries. -/
theorem job_status_dedup :
    (∀ (jobId : String) (seen : List String) (d : JobDescr) (rest : List JobDescr) (v : String),
        findMultiTag d.tags = some v → v ∈ seen →
        statusFold jobId seen (d :: rest) = statusFold jobId seen rest) ∧
    (∀ (jobId : String) (js : List JobDescr) (v : String),
        (statusFold jobId [] js).countP (fun i => i.id == jobId ++ " " ++ v) ≤ 1) := by
  constructor
  · intro jobId seen d rest v hm hv
    simp [statusFold, hm, hv]
  · intro jobId js v
    exact (statusFold_countP jobId v js []).2

/-- C2, witness: a duplicate-suffix job produces no row and leaves the
rest of the fold unchanged. -/
theorem job_status_dedup_witness :
    statusFold "J" ["a"] [⟨"r2", .running, ["multi:a"], none, some 2, none⟩] = [] :=
  (job_status_dedup.1 "J" ["a"] ⟨"r2", .running, ["multi:a"], none, some 2, none⟩ [] "a"
      (by decide) (by decide)).trans rfl

/-! ## Claim C6 -/

/-- Generic fact about `t.Dict` key processing: a schema key named `name`
with default `d` whose checker maps `d` to `v'` produces the binding
`name ↦ v'` whenever the key is absent from the input. -/
theorem applyKeys_default_absent :
    ∀ (keys : List KeySpec) (input out : List (String × YVal)) (name : String) (d v' : YVal),
      applyKeys keys input = some out →
      (∃ ks ∈ keys, ks.name = name) →
      (∀ ks ∈ keys, ks.name = name → ks.mode = KeyMode.dflt d ∧ ks.check d = some v') →
      lookupKV input name = none →
      lookupKV out name = some v' := by
  intro keys
  induction keys with
  | nil =>
    intro input out name d v' _ hex _ _
    rcases hex with ⟨ks, hks, _⟩
    cases hks
  | cons k rest ih =>
    intro input out name d v' happ hex hall hlook
    by_cases hk : k.name = name
    · obtain ⟨hmode, hcheck⟩ := hall k (List.mem_cons_self k rest) hk
      rw [applyKeys, hk, hlook, hmode] at happ
      simp only at happ
      rw [hcheck] at happ
      rcases hrest : applyKeys rest input with _ | restOut
      · rw [hrest] at happ; cases happ
      · rw [hrest] at happ
        simp at happ
        rw [← happ]
        simp [lookupKV, List.find?, hk]
    · have hex' : ∃ ks ∈ rest, ks.name = name := by
        rcases hex with ⟨ks, hks, hname⟩
        rcases List.mem_cons.mp hks with rfl | hmem
        · exact absurd hname hk
        · exact ⟨ks, hmem, hname⟩
      have hall' : ∀ ks ∈ rest, ks.name = name → ks.mode = KeyMode.dflt d ∧ ks.check d = some v' :=
        fun ks hks hname => hall ks (List.mem_cons_of_mem k hks) hname
      have hkbeq : ((k.name == name) : Bool) = false := by
        rw [beq_eq_false_iff_ne]; exact hk
      rw [applyKeys] at happ
      rcases hlk : lookupKV input k.name with _ | v
      · rw [hlk] at happ
        rcases hmode : k.mode with _ | _ | d0
        · rw [hmode] at happ; cases happ
        · rw [hmode] at happ
          simp only at happ
          exact ih input out name d v' happ hex' hall' hlook
        · rw [hmode] at happ
          simp only at happ
          rcases hc : k.check d0 with _ | v0
          · rw [hc] at happ; cases happ
          · rw [hc] at happ
            rcases hrest : applyKeys rest input with _ | restOut
            · rw [hrest] at happ; cases happ
            · rw [hrest] at happ
              simp at happ
              rw [← happ]
              have := ih input restOut name d v' hrest hex' hall' hlook
              simpa [lookupKV, List.find?, hkbeq] using this
      · rw [hlk] at happ
        simp only at happ
        rcases hc : k.check v with _ | v0
        · rw [hc] at happ; cases happ
        · rw [hc] at happ
          rcases hrest : applyKeys rest input with _ | restOut
          · rw [hrest] at happ; cases happ
          · rw [hrest] at happ
            simp at happ
            rw [← happ]
            have := ih input restOut name d v' hrest hex' hall' hlook
            simpa [lookupKV, List.find?, hkbeq] using this

/-- C6, counterexample: the claim says an absent `requires-auth` key
receives the default `true`, but the schema has no `requires-auth` key at
all (`http-auth` is plain optional, without a default): a minimal accepted
job document produces an output with no `requires-auth` binding. -/
theorem schema_no_requires_auth :
    dictCheck jobKeys [("image", YVal.s "img"), ("cmd", YVal.s "echo hi")] =
      some [("image", YVal.s "img"), ("cmd", YVal.s "echo hi"), ("env", YVal.map []),
            ("volumes", YVal.list []), ("tags", YVal.list []),
            ("detach", YVal.s "False"), ("browse", YVal.s "False")] ∧
    lookupKV
        [("image", YVal.s "img"), ("cmd", YVal.s "echo hi"), ("env", YVal.map []),
         ("volumes", YVal.list []), ("tags", YVal.list []),
         ("detach", YVal.s "False"), ("browse", YVal.s "False")] "requires-auth" = none := by
  exact ⟨rfl, rfl⟩

/-- C6, amended: for every document accepted by the job/volume schemas, a
defaulted key absent from the source receives its (checker-converted)
default: `env` the empty map, `volumes` and `tags` empty lists, and the
boolean-false defaults of `ro`, `detach` and `browse` (stored as the
string rendering `"False"` by the `t.Bool & str` pipeline).  The schema
has no `requires-auth` key. -/
theorem schema_defaults :
    (∀ input out, dictCheck jobKeys input = some out →
      (lookupKV input "env" = none → lookupKV out "env" = some (YVal.map [])) ∧
      (lookupKV input "volumes" = none → lookupKV out "volumes" = some (YVal.list [])) ∧
      (lookupKV input "tags" = none → lookupKV out "tags" = some (YVal.list [])) ∧
      (lookupKV input "detach" = none → lookupKV out "detach" = some (YVal.s "False")) ∧
      (lookupKV input "browse" = none → lookupKV out "browse" = some (YVal.s "False"))) ∧
    (∀ input out, dictCheck volumeKeys input = some out →
      (lookupKV input "ro" = none → lookupKV out "ro" = some (YVal.s "False"))) := by
  constructor
  · intro input out h
    have happ : applyKeys jobKeys input = some out := by
      unfold dictCheck at h
      split at h
      · exact h
      · cases h
    refine ⟨?_, ?_, ?_, ?_, ?_⟩
    · intro habs
      refine applyKeys_default_absent jobKeys input out "env" (YVal.map []) (YVal.map []) happ
        ⟨⟨"env", .dflt (YVal.map []), tMapStrStr⟩, by simp [jobKeys, execUnitKeys], rfl⟩ ?_ habs
      intro ks hks hname
      simp [jobKeys, execUnitKeys] at hks
      rcases hks with rfl|rfl|rfl|rfl|rfl|rfl|rfl|rfl|rfl|rfl|rfl|rfl|rfl|rfl|rfl <;>
        first
          | exact absurd hname (by decide)
          | exact ⟨rfl, rfl⟩
    · intro habs
      refine applyKeys_default_absent jobKeys input out "volumes" (YVal.list []) (YVal.list []) happ
        ⟨⟨"volumes", .dflt (YVal.list []), tListStr⟩, by simp [jobKeys, execUnitKeys], rfl⟩ ?_ habs
      intro ks hks hname
      simp [jobKeys, execUnitKeys] at hks
      rcases hks with rfl|rfl|rfl|rfl|rfl|rfl|rfl|rfl|rfl|rfl|rfl|rfl|rfl|rfl|rfl <;>
        first
          | exact absurd hname (by decide)
          | exact ⟨rfl, rfl⟩
    · intro habs
      refine applyKeys_default_absent jobKeys input out "tags" (YVal.list []) (YVal.list []) happ
        ⟨⟨"tags", .dflt (YVal.list []), tListStr⟩, by simp [jobKeys, execUnitKeys], rfl⟩ ?_ habs
      intro ks hks hname
      simp [jobKeys, execUnitKeys] at hks
      rcases hks with rfl|rfl|rfl|rfl|rfl|rfl|rfl|rfl|rfl|rfl|rfl|rfl|rfl|rfl|rfl <;>
        first
          | exact absurd hname (by decide)
          | exact ⟨rfl, rfl⟩
    · intro habs
      refine applyKeys_default_absent jobKeys input out "detach" (YVal.b false) (YVal.s "False") happ
        ⟨⟨"detach", .dflt (YVal.b false), tBoolStr⟩, by simp [jobKeys, execUnitKeys], rfl⟩ ?_ habs
      intro ks hks hname
      simp [jobKeys, execUnitKeys] at hks
      rcases hks with rfl|rfl|rfl|rfl|rfl|rfl|rfl|rfl|rfl|rfl|rfl|rfl|rfl|rfl|rfl <;>
        first
          | exact absurd hname (by decide)
          | exact ⟨rfl, rfl⟩
    · intro habs
      refine applyKeys_default_absent jobKeys input out "browse" (YVal.b false) (YVal.s "False") happ
        ⟨⟨"browse", .dflt (YVal.b false), tBoolStr⟩, by simp [jobKeys, execUnitKeys], rfl⟩ ?_ habs
      intro ks hks hname
      simp [jobKeys, execUnitKeys] at hks
      rcases hks with rfl|rfl|rfl|rfl|rfl|rfl|rfl|rfl|rfl|rfl|rfl|rfl|rfl|rfl|rfl <;>
        first
          | exact absurd hname (by decide)
          | exact ⟨rfl, rfl⟩
  · intro input out h
    have happ : applyKeys volumeKeys input = some out := by
      unfold dictCheck at h
      split at h
      · exact h
      · cases h
    intro habs
    refine applyKeys_default_absent volumeKeys input out "ro" (YVal.b false) (YVal.s "False") happ
      ⟨⟨"ro", .dflt (YVal.b false), tBoolStrOrExpr⟩, by simp [volumeKeys], rfl⟩ ?_ habs
    intro ks hks hname
    simp [volumeKeys] at hks
    rcases hks with rfl|rfl|rfl <;>
      first
        | exact absurd hname (by decide)
        | exact ⟨rfl, rfl⟩

/-- C6, witness: the defaults materialize on a minimal job document and a
minimal volume document. -/
theorem schema_defaults_witness :
    lookupKV [("image", YVal.s "img"), ("cmd", YVal.s "echo hi"), ("env", YVal.map []),
        ("volumes", YVal.list []), ("tags", YVal.list []),
        ("detach", YVal.s "False"), ("browse", YVal.s "False")] "env" = some (YVal.map []) ∧
    lookupKV [("uri", YVal.s "storage:dir"), ("mount", YVal.s "/mnt"), ("ro", YVal.s "False")]
        "ro" = some (YVal.s "False") :=
  ⟨(schema_defaults.1 [("image", YVal.s "img"), ("cmd", YVal.s "echo hi")] _ rfl).1 rfl,
   (schema_defaults.2 [("uri", YVal.s "storage:dir"), ("mount", YVal.s "/mnt")] _ rfl) rfl⟩

/-! ## Claim C3 -/

theorem ddPass_length_le : ∀ s : List Char, (ddPass s).length ≤ s.length
  | [] => le_refl _
  | [_] => le_refl _
  | a :: b :: rest => by
    by_cases h : a = '-' ∧ b = '-'
    · simp only [ddPass, if_pos h, List.length_cons]
      have := ddPass_length_le rest
      omega
    · simp only [ddPass, if_neg h, List.length_cons]
      have := ddPass_length_le (b :: rest)
      simp only [List.length_cons] at this
      omega

theorem ddPass_length_lt : ∀ s : List Char, hasDD s = true → (ddPass s).length < s.length
  | [] => by intro h; simp [hasDD] at h
  | [_] => by intro h; simp [hasDD] at h
  | a :: b :: rest => by
    intro h
    by_cases hd : a = '-' ∧ b = '-'
    · simp only [ddPass, if_pos hd, List.length_cons]
      have := ddPass_length_le rest
      omega
    · simp only [ddPass, if_neg hd, List.length_cons]
      have hDD : hasDD (b :: rest) = true := by
        simp only [hasDD, Bool.or_eq_true, Bool.and_eq_true, decide_eq_true_eq] at h
        rcases h with ⟨ha, hb⟩ | h
        · exact absurd ⟨ha, hb⟩ hd
        · exact h
      have := ddPass_length_lt (b :: rest) hDD
      simp only [List.length_cons] at this ⊢
      omega

theorem ddPass_ne_nil : ∀ s : List Char, s ≠ [] → ddPass s ≠ []
  | [] => fun h => absurd rfl h
  | [_] => by intro _; simp [ddPass]
  | a :: b :: rest => by
    intro _
    by_cases h : a = '-' ∧ b = '-' <;> simp [ddPass, h]

theorem ddPass_head? : ∀ s : List Char, (ddPass s).head? = s.head?
  | [] => rfl
  | [_] => rfl
  | a :: b :: rest => by
    by_cases h : a = '-' ∧ b = '-'
    · simp [ddPass, h, h.1]
    · simp [ddPass, h]

theorem getLast?_cons_ne_nil {a : Char} {l : List Char} (h : l ≠ []) :
    (a :: l).getLast? = l.getLast? := by
  rcases l with _ | ⟨x, xs⟩
  · exact absurd rfl h
  · exact List.getLast?_cons_cons

theorem ddPass_getLast? : ∀ s : List Char, (ddPass s).getLast? = s.getLast?
  | [] => rfl
  | [_] => rfl
  | a :: b :: rest => by
    by_cases h : a = '-' ∧ b = '-'
    · rcases rest with _ | ⟨x, xs⟩
      · simp [ddPass, h, h.2]
      · have hne : ddPass (x :: xs) ≠ [] := ddPass_ne_nil _ (by simp)
        have ih := ddPass_getLast? (x :: xs)
        simp only [ddPass, if_pos h]
        rw [getLast?_cons_ne_nil hne, ih, List.getLast?_cons_cons, List.getLast?_cons_cons]
    · have hne : ddPass (b :: rest) ≠ [] := ddPass_ne_nil _ (by simp)
      have ih := ddPass_getLast? (b :: rest)
      simp only [ddPass, if_neg h]
      rw [getLast?_cons_ne_nil hne, ih, List.getLast?_cons_cons]

theorem collapseAux_length_le : ∀ (fuel : Nat) (s : List Char), (collapseAux fuel s).length ≤ s.length := by
  intro fuel
  induction fuel with
  | zero => intro s; exact le_refl _
  | succ n ih =>
    intro s
    unfold collapseAux
    split
    · exact le_trans (ih (ddPass s)) (ddPass_length_le s)
    · exact le_refl _

theorem collapseAux_head? : ∀ (fuel : Nat) (s : List Char), (collapseAux fuel s).head? = s.head? := by
  intro fuel
  induction fuel with
  | zero => intro s; rfl
  | succ n ih =>
    intro s
    unfold collapseAux
    split
    · rw [ih (ddPass s), ddPass_head?]
    · rfl

theorem collapseAux_getLast? : ∀ (fuel : Nat) (s : List Char), (collapseAux fuel s).getLast? = s.getLast? := by
  intro fuel
  induction fuel with
  | zero => intro s; rfl
  | succ n ih =>
    intro s
    unfold collapseAux
    split
    · rw [ih (ddPass s), ddPass_getLast?]
    · rfl

theorem collapseAux_noDD : ∀ (fuel : Nat) (s : List Char), s.length ≤ fuel →
    hasDD (collapseAux fuel s) = false := by
  intro fuel
  induction fuel with
  | zero =>
    intro s h
    have : s = [] := List.eq_nil_of_length_eq_zero (Nat.le_zero.mp h)
    subst this
    rfl
  | succ n ih =>
    intro s h
    unfold collapseAux
    rcases hdd : hasDD s
    · simp [hdd]
    · simp only [hdd, if_true]
      apply ih
      have := ddPass_length_lt s hdd
      omega

theorem headDropWhileNotDash :
    ∀ (l : List Char) (c : Char), (l.dropWhile (fun c => c == '-')).head? = some c → (c == '-') = false := by
  intro l
  induction l with
  | nil => intro c h; cases h
  | cons a l ih =>
    intro c h
    by_cases ha : ((a == '-') : Bool) = true
    · rw [List.dropWhile_cons, if_pos ha] at h
      exact ih c h
    · rw [List.dropWhile_cons, if_neg ha] at h
      simp at h
      rw [← h]
      exact Bool.eq_false_iff.mpr ha

theorem exists_append_dropWhile :
    ∀ l : List Char, ∃ t, l = t ++ l.dropWhile (fun c => c == '-') := by
  intro l
  induction l with
  | nil => exact ⟨[], rfl⟩
  | cons a l ih =>
    by_cases ha : ((a == '-') : Bool) = true
    · obtain ⟨t, ht⟩ := ih
      refine ⟨a :: t, ?_⟩
      rw [List.dropWhile_cons, if_pos ha]
      rw [List.cons_append, ← ht]
    · refine ⟨[], ?_⟩
      rw [List.dropWhile_cons, if_neg ha]
      rfl

theorem stripDash_head? :
    ∀ (s : List Char) (c : Char), (stripDash s).head? = some c → (c == '-') = false := by
  intro s c h
  unfold stripDash at h
  obtain ⟨t, ht⟩ :=
    exists_append_dropWhile (s.dropWhile (fun c => c == '-')).reverse
  have hu2 : s.dropWhile (fun c => c == '-') =
      ((s.dropWhile (fun c => c == '-')).reverse.dropWhile (fun c => c == '-')).reverse ++ t.reverse := by
    have h2 := congrArg List.reverse ht
    simpa using h2
  have hwne : ((s.dropWhile (fun c => c == '-')).reverse.dropWhile (fun c => c == '-')).reverse ≠ [] := by
    intro hnil
    rw [hnil] at h
    cases h
  have hhead : (s.dropWhile (fun c => c == '-')).head? = some c := by
    rw [hu2, List.head?_append_of_ne_nil _ hwne]
    exact h
  exact headDropWhileNotDash s c hhead

theorem stripDash_getLast? :
    ∀ (s : List Char) (c : Char), (stripDash s).getLast? = some c → (c == '-') = false := by
  intro s c h
  unfold stripDash at h
  rw [List.getLast?_reverse] at h
  exact headDropWhileNotDash _ c h

/-- C3, counterexample: the claim asserts the derived name is always at
most 40 characters with no leading dash, but with project id `p` and the
40-character job id `aaaa…a` the slice bound `40 - len(second) - 1` is
`-1`, a *negative* Python slice that drops the last character of the first
part, leaving the empty string: the result `-aaaa…a` is 41 characters long
and starts with a dash. -/
theorem derive_name_violates_claim :
    (deriveName ['p'] (List.replicate 40 'a') false []).length = 41 ∧
    (deriveName ['p'] (List.replicate 40 'a') false []).head? = some '-' := by
  exact ⟨by decide, by decide⟩

/-- C3, amended: whenever both normalized parts are nonempty and the
normalized second part (job id, plus `-<suffix>` for multi jobs) is at
most 38 characters, the derived name is at most 40 characters, contains no
`--`, and has neither a leading nor a trailing dash.  (A longer or empty
part defeats the bound, as the counterexample shows.) -/
theorem derive_name_invariants :
    ∀ (p j sfx : List Char) (multi : Bool),
      normalizePart p ≠ [] →
      normalizePart (if multi then j ++ '-' :: sfx else j) ≠ [] →
      (normalizePart (if multi then j ++ '-' :: sfx else j)).length ≤ 38 →
      (deriveName p j multi sfx).length ≤ 40 ∧
      hasDD (deriveName p j multi sfx) = false ∧
      (∀ c, (deriveName p j multi sfx).head? = some c → c ≠ '-') ∧
      (∀ c, (deriveName p j multi sfx).getLast? = some c → c ≠ '-') := by
  intro p j sfx multi hF hS hlen
  set F := normalizePart p with hFdef
  set S := normalizePart (if multi then j ++ '-' :: sfx else j) with hSdef
  have hT : pyTruncate F (40 - (S.length : Int) - 1) = F.take (39 - S.length) := by
    unfold pyTruncate
    rw [if_pos (by omega : (0 : Int) ≤ 40 - (S.length : Int) - 1)]
    congr 1
    omega
  have hname : deriveName p j multi sfx = collapseDD (F.take (39 - S.length) ++ '-' :: S) := by
    unfold deriveName
    rw [← hFdef, ← hSdef, hT]
  have hTne : F.take (39 - S.length) ≠ [] := by
    intro hnil
    have hl := congrArg List.length hnil
    simp only [List.length_take, List.length_nil] at hl
    rcases Nat.min_eq_zero_iff.mp hl with h0 | h0
    · omega
    · exact hF (List.eq_nil_of_length_eq_zero h0)
  have hFne : F ≠ [] := hF
  have hSne : S ≠ [] := hS
  refine ⟨?_, ?_, ?_, ?_⟩
  · rw [hname]
    have h1 := collapseAux_length_le (F.take (39 - S.length) ++ '-' :: S).length
      (F.take (39 - S.length) ++ '-' :: S)
    have h2 : (F.take (39 - S.length) ++ '-' :: S).length =
        (F.take (39 - S.length)).length + 1 + S.length := by
      simp [List.length_append]
      omega
    have h3 : (F.take (39 - S.length)).length ≤ 39 - S.length := by
      simp [List.length_take]
    unfold collapseDD
    omega
  · rw [hname]
    exact collapseAux_noDD _ _ (le_refl _)
  · intro c hc
    rw [hname] at hc
    unfold collapseDD at hc
    rw [collapseAux_head?, List.head?_append_of_ne_nil _ hTne] at hc
    have hhead : F.head? = some c := by
      rcases hFeq : F with _ | ⟨f, fs⟩
      · exact absurd hFeq hFne
      · rcases hk : 39 - S.length with _ | n
        · omega
        · rw [hFeq, hk] at hc
          simpa using hc
    have hstrip : (stripDash (undToDash p)).head? = some c := by
      rw [hFdef] at hhead
      unfold normalizePart collapseDD at hhead
      rw [collapseAux_head?] at hhead
      exact hhead
    have := stripDash_head? (undToDash p) c hstrip
    simpa using this
  · intro c hc
    rw [hname] at hc
    unfold collapseDD at hc
    rw [collapseAux_getLast?, List.getLast?_append_of_ne_nil _ (by simp : ('-' :: S) ≠ []),
      getLast?_cons_ne_nil hSne] at hc
    have hstrip : (stripDash (undToDash (if multi then j ++ '-' :: sfx else j))).getLast? = some c := by
      rw [hSdef] at hc
      unfold normalizePart collapseDD at hc
      rw [collapseAux_getLast?] at hc
      exact hc
    have := stripDash_getLast? (undToDash (if multi then j ++ '-' :: sfx else j)) c hstrip
    simpa using this

/-- C3, witness: the spec's name-collapse scenario satisfies the amended
invariants. -/
theorem derive_name_invariants_witness :
    (deriveName "my__cool--proj".data "data_pipeline".data false []).length ≤ 40 ∧
    hasDD (deriveName "my__cool--proj".data "data_pipeline".data false []) = false ∧
    (∀ c, (deriveName "my__cool--proj".data "data_pipeline".data false []).head? = some c → c ≠ '-') ∧
    (∀ c, (deriveName "my__cool--proj".data "data_pipeline".data false []).getLast? = some c → c ≠ '-') :=
  derive_name_invariants "my__cool--proj".data "data_pipeline".data [] false
    (by decide) (by decide) (by decide)
